import Mathlib

/-
Verification of the langkit semantic core (compiled-type model, precise-type
inference, diagnostics, collection-operation compiler) against its
natural-language specification.

Each definition is a shallow embedding of a function or a data structure of
the Python sources (`langkit/compiled_types.py`, `langkit/diagnostics.py`,
`langkit/expressions/collections.py`); line references point into those
files.  Parts of the repository that the sources only import
(`langkit.utils.memoized`, `langkit.utils.types.TypeSet`,
`langkit.expressions.base`) are modelled from the specification; their doc
comments say so explicitly.
-/

namespace Langkit

/-! ### Diagnostics model (`langkit/diagnostics.py`)

`DiagnosticError` is the exception raised by blocking checks; `hostCrash`
stands for a Python-level crash (e.g. an `AttributeError` on `None`) that is
not a diagnostic. -/

inductive Diag where
  | diagnosticError : Diag
  | hostCrash : Diag
deriving Repr, DecidableEq

/-- Severities for diagnostics (`diagnostics.py:229-236`). -/
inductive Severity where
  | warning : Severity
  | error : Severity
  | non_blocking_error : Severity
deriving Repr, DecidableEq

/-- Process-wide diagnostics state: the pending-error flag
(`diagnostics.py:35`, `Diagnostics.has_pending_error`). -/
structure DiagnosticsState where
  has_pending_error : Bool
deriving Repr, DecidableEq

/-- `check_source_language` (`diagnostics.py:330-376`).  Printing of the
message and of the context stack is elided (pure output); the message text is
therefore dropped.  Control flow is embedded exactly: a false predicate
raises only at `error` severity with `do_raise` set; at
`non_blocking_error` severity it records the pending-error flag and
returns normally; otherwise it returns normally without touching state. -/
def check_source_language (predicate : Bool) (severity : Severity)
    (do_raise : Bool) (st : DiagnosticsState) :
    Except Diag Unit × DiagnosticsState :=
  if predicate then
    (Except.ok (), st)
  else
    match severity, do_raise with
    | Severity.error, true => (Except.error Diag.diagnosticError, st)
    | Severity.non_blocking_error, _ =>
        (Except.ok (), { st with has_pending_error := true })
    | _, _ => (Except.ok (), st)

/-- `errors_checkpoint` (`diagnostics.py:596-602`): raise and clear the flag
iff a non-blocking error is pending. -/
def errors_checkpoint (st : DiagnosticsState) :
    Except Diag Unit × DiagnosticsState :=
  if st.has_pending_error then
    (Except.error Diag.diagnosticError, { has_pending_error := false })
  else
    (Except.ok (), st)

/-- A validation pass as a sequence of checks (predicate, severity), each
performed through `check_source_language` with `do_raise = true`, stopping
as soon as one of them raises (this is how `ASTNodeType.validate_fields`,
`compiled_types.py:2962-3064`, issues its sequence of homonym/abstract-field
checks). -/
def run_checks : List (Bool × Severity) → DiagnosticsState →
    Except Diag Unit × DiagnosticsState
  | [], st => (Except.ok (), st)
  | c :: rest, st =>
      match check_source_language c.1 c.2 true st with
      | (Except.ok _, st') => run_checks rest st'
      | (Except.error e, st') => (Except.error e, st')

/-! ### Type registry model (`CompiledTypeRepo.type_dict`)

The registry is an association list from repository names to type
identities (types are identified by allocation ids, which stands for
Python object identity). -/

abbrev TypeDict := List (String × Nat)

/-- Lookup in `CompiledTypeRepo.type_dict` (first binding wins, as for a
Python dict where each key occurs at most once). -/
def lookup_type (name : String) : TypeDict → Option Nat
  | [] => none
  | (n, t) :: rest => if n = name then some t else lookup_type name rest

/-- Registration of a compiled type, from `CompiledType.__init__`
(`compiled_types.py:692-693`):

    type_repo_name = type_repo_name or dsl_name or name.camel
    CompiledTypeRepo.type_dict[type_repo_name] = self

This is an unconditional Python dict assignment: it binds `name` to `t`,
replacing any previous binding.  There is no check and no error path, which
the `Except` result type makes explicit: registration always succeeds. -/
def register_type (name : String) (t : Nat) (d : TypeDict) :
    Except Diag TypeDict :=
  Except.ok ((name, t) :: d.filter (fun p => p.1 ≠ name))

/-! ### Memoized derived types

`CompiledType.array` (`compiled_types.py:1254-1264`), `ASTNodeType.list`
(`compiled_types.py:2902-2924`) and `ASTNodeType.entity`
(`compiled_types.py:2953-2960`) are all properties guarded by the
`@memoized` decorator from `langkit.utils`. -/

/-- Cache of memoized property results: maps (receiver identity, property
name) to the identity of the derived type instance, together with the next
fresh identity. -/
structure MemoState where
  memo : List ((Nat × String) × Nat)
  next : Nat
deriving Repr, DecidableEq

/-- Association-list lookup for the memoization cache. -/
def memoLookup (k : Nat × String) : List ((Nat × String) × Nat) → Option Nat
  | [] => none
  | (k', v) :: rest => if k' = k then some v else memoLookup k rest

/-- Modelled from the spec: the `@memoized` decorator of `langkit.utils`
(not under the embedded sources).  "Memoized derived types (array-of-T,
node.list, node.entity) must be produced by a single authoritative path":
the first request for a (receiver, property) pair allocates a fresh
instance and records it in the cache; every later request returns the
recorded instance and leaves the cache unchanged. -/
def memoizedGet (obj : Nat) (prop : String) (s : MemoState) :
    Nat × MemoState :=
  match memoLookup (obj, prop) s.memo with
  | some v => (v, s)
  | none => (s.next, ⟨((obj, prop), s.next) :: s.memo, s.next + 1⟩)

/-- `CompiledType.array` (`compiled_types.py:1254-1264`): the memoized
array-of-self derivation.  The receiver is the compiled type's identity. -/
def CompiledType.array (t : Nat) (s : MemoState) : Nat × MemoState :=
  memoizedGet t "array" s

/-- `ASTNodeType.list` (`compiled_types.py:2902-2924`): the memoized
list-of-self node type derivation. -/
def ASTNodeType.list (n : Nat) (s : MemoState) : Nat × MemoState :=
  memoizedGet n "list" s

/-- `ASTNodeType.entity` (`compiled_types.py:2953-2960`): the memoized
entity-of-self derivation. -/
def ASTNodeType.entity (n : Nat) (s : MemoState) : Nat × MemoState :=
  memoizedGet n "entity" s

/-! ### Precise-type inference (`Field._compute_precise_types`,
`ASTNodeType.compute_precise_fields_types`) -/

/-- Modelled from the spec: `TypeSet` (`langkit.utils.types`, not under the
embedded sources) — "TypeSet — set of ASTNodeType ... Operations:
union/update".  Only membership semantics matters for the claims below, so
a type set is a list of node-type ids, `TS.update` is set union
(membership-wise), and the empty list is the empty `TypeSet()`. -/
abbrev TS := List Nat

/-- `TypeSet.update`: set union, membership-wise. -/
def TS.update (a b : TS) : TS := a ++ b

/-- Parse-field model (`Field`, `compiled_types.py`).  Static data:

* `abstract`, `null` flags and `synthetic` (the owning struct's
  `synthetic` flag, read as `self.struct.synthetic`);
* `is_list` — whether the declared type is a list type
  (`self.type.is_list_type`); `typ` — the declared type's id; `elem` — the
  declared type's element type id (meaningful when `is_list`);
* `concrete_fields` — the concrete fields overriding this (abstract)
  field, as populated by the `overriding` setter
  (`compiled_types.py:1898-1904`);
* `parsers` — one entry per parser production bound to this field slot
  (`parsers_from_transform`): the pair of that parser's `precise_types`
  and `precise_element_types` contributions (parsers live outside the
  embedded sources, so their contributed sets are plain data here).

The mutable slots `pt` (`_precise_types`) and `pet`
(`_precise_element_types`) start at `none` and are filled in by the
inference pass. -/
inductive Field where
  | mk (abstract null synthetic is_list : Bool) (typ elem : Nat)
       (concrete_fields : List Field)
       (parsers : List (TS × TS))
       (pt : Option TS) (pet : Option TS)

def Field.abstract : Field → Bool
  | .mk ab _ _ _ _ _ _ _ _ _ => ab

def Field.null : Field → Bool
  | .mk _ nl _ _ _ _ _ _ _ _ => nl

def Field.synthetic : Field → Bool
  | .mk _ _ sy _ _ _ _ _ _ _ => sy

def Field.is_list : Field → Bool
  | .mk _ _ _ il _ _ _ _ _ _ => il

def Field.typ : Field → Nat
  | .mk _ _ _ _ ty _ _ _ _ _ => ty

def Field.elem : Field → Nat
  | .mk _ _ _ _ _ el _ _ _ _ => el

def Field.concrete_fields : Field → List Field
  | .mk _ _ _ _ _ _ cfs _ _ _ => cfs

def Field.parsers : Field → List (TS × TS)
  | .mk _ _ _ _ _ _ _ ps _ _ => ps

/-- Slot `_precise_types`; the `precise_types` property asserts it is set
and returns it. -/
def Field.pt : Field → Option TS
  | .mk _ _ _ _ _ _ _ _ pt _ => pt

/-- Slot `_precise_element_types`; the `precise_element_types` property
asserts the field is a list field, asserts the slot is set, and returns
it. -/
def Field.pet : Field → Option TS
  | .mk _ _ _ _ _ _ _ _ _ pet => pet

/-- `Field._compute_precise_types` (`compiled_types.py:1810-1849`),
returning the field with its slots (and, in the abstract branch, its
overriding fields' slots) filled in:

* null field: singleton of the declared type (and of its element type for
  lists);
* abstract field: recursively compute each overriding concrete field, then
  take the union of their `precise_types` (and, for lists, of their
  `precise_element_types`; reading `precise_element_types` of a non-list
  overrider would fail an assertion in the source, which `Option.getD []`
  stands in for — such a state is unreachable, overriders of a list field
  are list fields);
* field on a synthetic struct: singleton of the declared type;
* otherwise: union of the contributions of the parser productions bound to
  this field slot. -/
def Field.compute_precise_types : Field → Field
  | .mk ab nl sy il ty el cfs ps _ _ =>
    if nl then
      .mk ab nl sy il ty el cfs ps (some [ty])
        (if il then some [el] else none)
    else if ab then
      let cfs' := cfs.attach.map (fun c => Field.compute_precise_types c.1)
      let types := cfs'.foldl (fun acc f => TS.update acc (f.pt.getD [])) []
      let etypes :=
        if il then
          some (cfs'.foldl (fun acc f => TS.update acc (f.pet.getD [])) [])
        else none
      .mk ab nl sy il ty el cfs' ps (some types) etypes
    else if sy then
      .mk ab nl sy il ty el cfs ps (some [ty])
        (if il then some [el] else none)
    else
      .mk ab nl sy il ty el cfs ps
        (some (ps.foldl (fun acc p => TS.update acc p.1) []))
        (if il then some (ps.foldl (fun acc p => TS.update acc p.2) [])
         else none)
decreasing_by
  have h1 := List.sizeOf_lt_of_mem c.2
  simp only [Field.mk.sizeOf_spec]
  omega

/-- AST-node model for the precise-type inference pass
(`ASTNodeType.compute_precise_fields_types`,
`compiled_types.py:2663-2680`):

* `is_list` — the node is a list node (`self.is_list`);
* `plet` — the mutable `precise_list_element_types` slot, `none` until
  computed (`compiled_types.py:2484`);
* `subs` — direct subclasses (`self.subclasses`);
* `list_parsers` — for list nodes, the `precise_types` contribution of
  each parser in `list_element_parsers` (parser code is outside the
  embedded sources, so contributions are data);
* `fields` — the node's own parse fields (`get_parse_fields` with
  `include_inherited=False`). -/
inductive PNode where
  | mk (is_list : Bool) (plet : Option TS) (subs : List PNode)
       (list_parsers : List TS) (fields : List Field)

def PNode.is_list : PNode → Bool
  | .mk il _ _ _ _ => il

def PNode.plet : PNode → Option TS
  | .mk _ pl _ _ _ => pl

def PNode.subs : PNode → List PNode
  | .mk _ _ s _ _ => s

def PNode.list_parsers : PNode → List TS
  | .mk _ _ _ lp _ => lp

def PNode.fields : PNode → List Field
  | .mk _ _ _ _ f => f

/-- `ASTNodeType.compute_precise_fields_types`
(`compiled_types.py:2663-2680`).  For a list node: if
`precise_list_element_types` is already computed, return immediately (the
source guard is `if self.precise_list_element_types:`; a `TypeSet`
instance defines no boolean conversion, so any computed set — `some` here
— is truthy and `None` is falsy); otherwise recursively run the pass on
every direct subclass, then set the slot to the union of the subclasses'
sets and of the node's own list-element parser contributions.  For a
non-list node: run `Field._compute_precise_types` on each of the node's
own parse fields — there is no skip guard on this branch. -/
def PNode.compute_precise_fields_types : PNode → PNode
  | .mk il pl subs lps flds =>
    if il then
      if pl.isSome then .mk il pl subs lps flds
      else
        let subs' :=
          subs.attach.map (fun s => PNode.compute_precise_fields_types s.1)
        let t1 := subs'.foldl (fun acc s => TS.update acc (s.plet.getD [])) []
        let types := lps.foldl (fun acc p => TS.update acc p) t1
        .mk il (some types) subs' lps flds
    else
      .mk il pl subs lps (flds.map Field.compute_precise_types)
decreasing_by
  have h1 := List.sizeOf_lt_of_mem s.2
  simp only [PNode.mk.sizeOf_spec]
  omega

/-- Amount of recomputation one run of `compute_precise_fields_types`
performs on a node in its current state: a skipped list node costs 0; a
recomputed list node costs 1 plus the cost of the recursive runs on its
subclasses; a non-list node costs one `Field._compute_precise_types` call
per own parse field. -/
def PNode.run_cost : PNode → Nat
  | .mk il pl subs lps flds =>
    if il then
      if pl.isSome then 0
      else
        1 + (subs.attach.map (fun s => PNode.run_cost s.1)).foldl (· + ·) 0
    else flds.length
decreasing_by
  have h1 := List.sizeOf_lt_of_mem s.2
  simp only [PNode.mk.sizeOf_spec]
  omega

/-! ### Node hierarchy and kind ranges (`ASTNodeType.concrete_subclasses`,
`compiled_types.py:2747-2765`, and `ada_kind_range_bounds`,
`compiled_types.py:2767-2778`) -/

/-- AST node type for kind-range reasoning: identity, `abstract` flag,
`hierarchical_name` (a memoized attribute in the source,
`compiled_types.py:2816-2828`, carried as data here) and the list of
direct `subclasses`. -/
inductive ANode where
  | mk (id : Nat) (abstract : Bool) (hname : String) (subs : List ANode)

def ANode.id : ANode → Nat
  | .mk i _ _ _ => i

def ANode.abstract : ANode → Bool
  | .mk _ ab _ _ => ab

def ANode.hname : ANode → String
  | .mk _ _ h _ => h

def ANode.subs : ANode → List ANode
  | .mk _ _ _ s => s

/-- `sorted(self.subclasses, key=lambda subcls: subcls.hierarchical_name)`
(`compiled_types.py:2759-2761`): stable sort by hierarchical name. -/
def sortByHName (l : List ANode) : List ANode :=
  l.mergeSort (fun a b => decide (a.hname ≤ b.hname))

/-- `ASTNodeType.concrete_subclasses` (`compiled_types.py:2747-2765`):
`self` first when concrete, then, for each direct subclass in hierarchical
name order, its own concrete subclasses. -/
def ANode.concrete_subclasses : ANode → List ANode
  | .mk i ab h sb =>
    (if ab then [] else [ANode.mk i ab h sb]) ++
      ((sortByHName sb).attach.map
        (fun s => ANode.concrete_subclasses s.1)).flatten
decreasing_by
  have h2 := s.2
  simp only [sortByHName] at h2
  have hs := (List.mergeSort_perm _ _).mem_iff.mp h2
  have h1 := List.sizeOf_lt_of_mem hs
  simp only [ANode.mk.sizeOf_spec]
  omega

/-- All nodes of the hierarchy rooted at a node (the node itself and all
its direct and indirect subclasses): the "direct or indirect descendant"
relation of the claim as a list. -/
def ANode.subtree : ANode → List ANode
  | .mk i ab h sb =>
    ANode.mk i ab h sb ::
      (sb.attach.map (fun s => ANode.subtree s.1)).flatten
decreasing_by
  have h1 := List.sizeOf_lt_of_mem s.2
  simp only [ANode.mk.sizeOf_spec]
  omega

/-- `ASTNodeType.ada_kind_range_bounds` (`compiled_types.py:2767-2778`):
the first and last concrete subclass (whose `ada_kind_name`s are the
emitted bounds), or the node itself twice when it has no concrete
subclass. -/
def ANode.ada_kind_range_bounds (n : ANode) : ANode × ANode :=
  match n.concrete_subclasses with
  | [] => (n, n)
  | x :: xs => (x, (x :: xs).getLast (by simp))

/-- Sample hierarchy: a concrete leaf node, id 2. -/
def kidD : ANode := ANode.mk 2 false "A.B.D" []

/-- Sample hierarchy: a concrete node, id 1, with one concrete subclass. -/
def kidB : ANode := ANode.mk 1 false "A.B" [kidD]

/-- Sample hierarchy: the abstract root, id 0. -/
def rootA : ANode := ANode.mk 0 true "A" [kidB]

/-- A concrete parse field: not abstract, not null, not synthetic, not a
list, declared type `7`, a single bound parser production contributing the
precise set containing the node type `3`. -/
def sampleConcreteField : Field :=
  Field.mk false false false false 7 0 [] [([3], [])] none none

/-- A second concrete parse field whose parser production contributes the
node type `4`. -/
def sampleConcreteField2 : Field :=
  Field.mk false false false false 7 0 [] [([4], [])] none none

/-- An abstract parse field overridden by the two concrete sample fields. -/
def sampleAbstractField : Field :=
  Field.mk true false false false 9 0 [sampleConcreteField, sampleConcreteField2]
    [] none none

/-- A concrete non-list AST node carrying one parse field. -/
def sampleNode : PNode :=
  PNode.mk false none [] [] [sampleConcreteField]

/-- A list node whose `precise_list_element_types` slot is already
computed. -/
def sampleComputedListNode : PNode :=
  PNode.mk true (some [5]) [] [[5]] []

/-! ### Compiled types for the expression compiler
(`langkit/expressions/collections.py`)

Types are identified by ids (Python object identity); a `TypeCtx` is the
object graph of the compiled-type model that the expression compiler
queries. -/

/-- Kind tag of a compiled type: `isinstance` classification. -/
inductive TKind where
  | bool : TKind
  | int : TKind
  | node : TKind
  | entity : TKind
  | array : TKind
  | other : TKind
deriving Repr, DecidableEq

/-- The compiled-type object graph:

* `kind t` — classification of type `t` (`isinstance` checks);
* `elem t` — `_element_type`: the element type for arrays and list nodes,
  the bare node for entity types (`EntityType.__init__`,
  `compiled_types.py:2167`), `none` otherwise;
* `base t` — `ASTNodeType.base` for node types;
* `isRootList t` — `is_root_list_type`;
* `entity n` — the memoized `ASTNodeType.entity` derivation;
* `boolT`, `intT`, `entityInfoT`, `rootNodeT` — the distinguished `T.Bool`,
  `T.Int`, entity-info struct and root grammar class (`root_grammar_class`)
  types. -/
structure TypeCtx where
  kind : Nat → TKind
  elem : Nat → Option Nat
  base : Nat → Option Nat
  isRootList : Nat → Bool
  entity : Nat → Nat
  boolT : Nat
  intT : Nat
  entityInfoT : Nat
  rootNodeT : Nat

/-- `CompiledType.is_entity_type`. -/
def TypeCtx.is_entity_type (ctx : TypeCtx) (t : Nat) : Bool :=
  ctx.kind t == TKind.entity

/-- `CompiledType.is_ast_node`. -/
def TypeCtx.is_ast_node (ctx : TypeCtx) (t : Nat) : Bool :=
  ctx.kind t == TKind.node

/-- `CompiledType.is_array_type`. -/
def TypeCtx.is_array_type (ctx : TypeCtx) (t : Nat) : Bool :=
  ctx.kind t == TKind.array

/-- `CompiledType.is_collection` (`compiled_types.py:993-999`):
`self._element_type is not None`. -/
def TypeCtx.is_collection (ctx : TypeCtx) (t : Nat) : Bool :=
  (ctx.elem t).isSome

/-- `CompiledType.is_list_type`: a node type holding elements. -/
def TypeCtx.is_list_type (ctx : TypeCtx) (t : Nat) : Bool :=
  ctx.is_ast_node t && (ctx.elem t).isSome

/-- `formal in self.get_inheritance_chain()`: walk `self`'s base chain
looking for `formal`; `fuel` bounds the walk (the Python walk terminates
because well-formed hierarchies are acyclic). -/
def TypeCtx.inChain (ctx : TypeCtx) : Nat → Nat → Nat → Bool
  | 0, _, _ => false
  | fuel + 1, self, formal =>
      self == formal ||
        (match ctx.base self with
         | some b => ctx.inChain fuel b formal
         | none => false)

/-- `CompiledType.matches` (`compiled_types.py:1232-1251`): entity types
match by their element types; node types match by inheritance-chain
membership; everything else matches by identity. -/
def TypeCtx.matches (ctx : TypeCtx) : Nat → Nat → Nat → Bool
  | 0, _, _ => false
  | fuel + 1, self, formal =>
      if ctx.is_entity_type self && ctx.is_entity_type formal then
        ctx.matches fuel ((ctx.elem self).getD 0) ((ctx.elem formal).getD 0)
      else if ctx.is_ast_node formal && ctx.is_ast_node self then
        ctx.inChain (fuel + 1) self formal
      else self == formal

/-! ### Resolved expressions (deep embedding of the resolved-expression
constructors that the collection-operation compiler emits). -/

inductive RExpr where
  | varE (name : String) (ty : Nat)
  | sequenceExpr (pre main : RExpr)
  | fieldAccessE (e : RExpr) (field : String) (ty : Nat)
  | asEntityE (node info : RExpr) (ty : Nat)
  | nullCheckE (e : RExpr) (implicit_deref : Bool)
  | uncheckedCast (e : RExpr) (ty : Nat)
  | callE (resultName fnName : String) (ty : Nat) (args : List RExpr)
  | boolLit (b : Bool)
  | eqE (a b : RExpr)
  | convertNode (e : RExpr) (ty : Nat)
  | quantExpr (qkind : String) (coll inner : RExpr)
      (element_vars : List (RExpr × Option RExpr)) (index_var : Option RExpr)

/-- Static type of a resolved expression (each resolved-expression class
carries its `static_type`; `SequenceExpr` and `NullCheckExpr` forward
their wrapped expression's type, `Eq` and `Quantifier.Expr` are `T.Bool`,
`Map.Expr` and casts carry the computed type). -/
def RExpr.tyOf (ctx : TypeCtx) : RExpr → Nat
  | .varE _ t => t
  | .sequenceExpr _ m => m.tyOf ctx
  | .fieldAccessE _ _ t => t
  | .asEntityE _ _ t => t
  | .nullCheckE e _ => e.tyOf ctx
  | .uncheckedCast _ t => t
  | .callE _ _ t _ => t
  | .boolLit _ => ctx.boolT
  | .eqE _ _ => ctx.boolT
  | .convertNode _ t => t
  | .quantExpr _ _ _ _ _ => ctx.boolT

/-- Modelled from the spec: `ResolvedExpression.destructure_entity`
(`langkit.expressions.base`, not under the embedded sources) — "If its
type is an Entity-of-collection, destructure into (bare collection,
entity-info)": returns the saved entity expression together with accesses
to its bare-node field and to its entity-info field. -/
def destructure_entity (ctx : TypeCtx) (e : RExpr) :
    RExpr × RExpr × RExpr :=
  (e,
   RExpr.fieldAccessE e "Node" ((ctx.elem (e.tyOf ctx)).getD 0),
   RExpr.fieldAccessE e "Info" ctx.entityInfoT)

/-- Modelled from the spec: `make_as_entity` (`langkit.expressions.envs`,
not under the embedded sources) — wrapping a bare node with an
entity-info value produces an entity of the node's entity type. -/
def make_as_entity (ctx : TypeCtx) (node info : RExpr) : RExpr :=
  RExpr.asEntityE node info (ctx.entity (node.tyOf ctx))

/-- Result record of `CollectionExpression.construct_common`
(`collections.py:64-126`): the (possibly destructured) collection, the
element iteration variables paired with their initializers, the optional
index variable and the constructed inner expression.  The inner lexical
scope is elided (pure code-generation bookkeeping). -/
structure CCResult where
  collection_expr : RExpr
  element_vars : List (RExpr × Option RExpr)
  index_var : Option RExpr
  inner_expr : RExpr

/-- `CollectionExpression.construct_common` (`collections.py:191-274`).
`collExpr` is the already-constructed collection expression; `inner`
builds the constructed per-element expression from the element variable
(the source constructs `self.expr`, which references `self.element_var`);
`hasIndex` tells whether the iteration lambda declared an index
parameter.  Mirrors the source: destructure entity collections and
remember the entity info; check the (bare) collection type is a
collection; type the element variable (wrapping into the entity type when
iterating on entities); add the bare-node variable initialized by
re-wrapping with the same entity info; add the untyped root-node variable
with a cast initializer when iterating on an AST list; pair variables
with initializers (the last variable has none). -/
def construct_common (ctx : TypeCtx) (collExpr : RExpr)
    (inner : RExpr → RExpr) (hasIndex : Bool) : Except Diag CCResult :=
  let with_entities := ctx.is_entity_type (collExpr.tyOf ctx)
  let dsi := destructure_entity ctx collExpr
  let collection_expr :=
    if with_entities then RExpr.sequenceExpr dsi.1 dsi.2.1 else collExpr
  let entity_info := dsi.2.2
  if ¬ ctx.is_collection (collection_expr.tyOf ctx) then
    Except.error Diag.diagnosticError
  else
    let elt_type0 := (ctx.elem (collection_expr.tyOf ctx)).getD 0
    let elt_type := if with_entities then ctx.entity elt_type0 else elt_type0
    let element_var := RExpr.varE "item" elt_type
    let elt_vars0 : List RExpr := [element_var]
    let inits0 : List (Option RExpr) := []
    let node_var := RExpr.varE "bare_item" ((ctx.elem elt_type).getD 0)
    let elt_vars1 :=
      if with_entities then elt_vars0 ++ [node_var] else elt_vars0
    let inits1 :=
      if with_entities then
        inits0 ++ [some (make_as_entity ctx node_var entity_info)]
      else inits0
    let untyped_var := RExpr.varE "untyped_item" ctx.rootNodeT
    let typed_elt_var := elt_vars1.getLast (by
      cases hw : with_entities <;> simp [elt_vars1, elt_vars0, hw])
    let elt_vars2 :=
      if ctx.is_list_type (collection_expr.tyOf ctx) then
        elt_vars1 ++ [untyped_var]
      else elt_vars1
    let inits2 :=
      if ctx.is_list_type (collection_expr.tyOf ctx) then
        inits1 ++ [some (RExpr.uncheckedCast untyped_var
          (typed_elt_var.tyOf ctx))]
      else inits1
    let index_var :=
      if hasIndex then some (RExpr.varE "i" ctx.intT) else none
    Except.ok
      { collection_expr := collection_expr
        element_vars := elt_vars2.zip (inits2 ++ [none])
        index_var := index_var
        inner_expr := inner element_var }

/-- Walk the `base` chain up to the root list type
(`canonicalize_list`'s `while not dest_type.is_root_list_type` loop,
`collections.py:45-48`); reaching a node with no base is a host-level
crash (`None.is_root_list_type`), as is fuel exhaustion (a cyclic base
chain would not terminate in Python either). -/
def findRootList (ctx : TypeCtx) : Nat → Nat → Except Diag Nat
  | 0, _ => Except.error Diag.hostCrash
  | fuel + 1, t =>
      if ctx.isRootList t then Except.ok t
      else
        match ctx.base t with
        | some b => findRootList ctx fuel b
        | none => Except.error Diag.hostCrash

/-- `canonicalize_list` (`collections.py:33-53`) with
`to_root_list=True`: read the element type, and when the collection is a
bare node convert it to its root list type. -/
def canonicalize_list_to_root (ctx : TypeCtx) (fuel : Nat) (c : RExpr) :
    Except Diag (RExpr × Nat) :=
  let element_type := (ctx.elem (c.tyOf ctx)).getD 0
  if ctx.is_ast_node (c.tyOf ctx) then
    match findRootList ctx fuel (c.tyOf ctx) with
    | Except.ok dest => Except.ok (RExpr.convertNode c dest, element_type)
    | Except.error e => Except.error e
  else
    Except.ok (c, element_type)

/-- `collection_get` (`collections.py:698-749`), the `.at` /
`.at_or_raise` compiler: construct the index with expected type `T.Int`;
construct the collection and, when it is an entity, destructure it and
remember the entity info; check for a collection type; insert the null
check; canonicalize to the root list type; emit the `Get` call; and, in
the entity case, re-wrap the selected result with the same entity info
under the saved-expression sequence. -/
def collection_get (ctx : TypeCtx) (fuel : Nat) (collection index : RExpr)
    (or_null : Bool) : Except Diag RExpr :=
  if ¬ (index.tyOf ctx == ctx.intT) then Except.error Diag.diagnosticError
  else
    let as_entity := ctx.is_entity_type (collection.tyOf ctx)
    let dsi := destructure_entity ctx collection
    let coll_expr0 := if as_entity then dsi.2.1 else collection
    let entity_info := dsi.2.2
    if ¬ ctx.is_collection (coll_expr0.tyOf ctx) then
      Except.error Diag.diagnosticError
    else
      let coll_expr1 :=
        if ctx.is_ast_node (coll_expr0.tyOf ctx) then
          RExpr.nullCheckE coll_expr0 false
        else if ctx.is_entity_type (coll_expr0.tyOf ctx) then
          RExpr.nullCheckE coll_expr0 true
        else coll_expr0
      match canonicalize_list_to_root ctx fuel coll_expr1 with
      | Except.error e => Except.error e
      | Except.ok (coll_expr2, element_type) =>
          let result := RExpr.callE "Get_Result" "Get" element_type
            [coll_expr2, index, RExpr.boolLit or_null]
          Except.ok
            (if as_entity then
              RExpr.sequenceExpr dsi.1 (make_as_entity ctx result entity_info)
            else result)

/-- `Concat.construct` (`collections.py:844-867`) on the types of its
already-constructed operands: check each operand is an array type, then
check the two array types are equal (`array_1.type == array_2.type` —
Python object identity, which ids model directly); on success the result
carries the first operand's array type. -/
def concat_construct (ctx : TypeCtx) (t1 t2 : Nat) : Except Diag Nat :=
  if ¬ ctx.is_array_type t1 then Except.error Diag.diagnosticError
  else if ¬ ctx.is_array_type t2 then Except.error Diag.diagnosticError
  else if ¬ (t1 == t2) then Except.error Diag.diagnosticError
  else Except.ok t1

/-- `Quantifier.construct` (`collections.py:677-692`): run the shared
construction path (the quantifier lambda takes one parameter, so no
index variable), check the inner expression's type matches `T.Bool`, and
build the `Quantifier.Expr` resolved expression. -/
def quantifier_construct (ctx : TypeCtx) (fuel : Nat) (qkind : String)
    (coll : RExpr) (pred : RExpr → RExpr) : Except Diag RExpr :=
  match construct_common ctx coll pred false with
  | Except.error e => Except.error e
  | Except.ok r =>
      if ¬ ctx.matches fuel (r.inner_expr.tyOf ctx) ctx.boolT then
        Except.error Diag.diagnosticError
      else
        Except.ok (RExpr.quantExpr qkind r.collection_expr r.inner_expr
          r.element_vars r.index_var)

/-- `Contains.construct` (`collections.py:295-307`): the per-element
expression is `item.equals(self.item)` (`collections.py:290-293`, an
equality whose resolved expression is boolean-typed), the shared path is
run (one-parameter lambda, so no index variable — the source asserts
`r.index_var is None`, a host-level crash if violated), and the result is
directly a `Quantifier.Expr` with the ANY kind. -/
def contains_construct (ctx : TypeCtx) (coll item : RExpr) :
    Except Diag RExpr :=
  match construct_common ctx coll (fun v => RExpr.eqE v item) false with
  | Except.error e => Except.error e
  | Except.ok r =>
      if r.index_var.isSome then Except.error Diag.hostCrash
      else
        Except.ok (RExpr.quantExpr "any" r.collection_expr r.inner_expr
          r.element_vars r.index_var)

/-- Modelled from the spec (refinement reference for the `contains`
claim): "the contains operation compiles to exactly the ANY quantifier
applied to the per-element predicate element-equals-item" — the full
`Quantifier.construct` path applied to the ANY kind and the equality
predicate. -/
def contains_via_any_quantifier (ctx : TypeCtx) (fuel : Nat)
    (coll item : RExpr) : Except Diag RExpr :=
  quantifier_construct ctx fuel "any" coll (fun v => RExpr.eqE v item)

/-- Sample compiled-type graph for the concat claim: node types 0 and 1
(1 derives from 0), array types 10 (of element 0) and 11 (of element 1),
everything else an integer type. -/
def arrayCtx : TypeCtx where
  kind := fun n =>
    if n = 10 then TKind.array
    else if n = 11 then TKind.array
    else if n = 0 then TKind.node
    else if n = 1 then TKind.node
    else TKind.int
  elem := fun n =>
    if n = 10 then some 0 else if n = 11 then some 1 else none
  base := fun n => if n = 1 then some 0 else none
  isRootList := fun _ => false
  entity := fun n => n + 100
  boolT := 5
  intT := 6
  entityInfoT := 7
  rootNodeT := 8

/-- Sample compiled-type graph for the collection claims: node 0 is the
element node type, node 1 the (root) list node of 0, type 2 the entity of
the list node 1, type 3 the entity of node 0. -/
def entityCtx : TypeCtx where
  kind := fun n =>
    if n = 0 then TKind.node
    else if n = 1 then TKind.node
    else if n = 2 then TKind.entity
    else if n = 3 then TKind.entity
    else if n = 5 then TKind.bool
    else if n = 6 then TKind.int
    else TKind.other
  elem := fun n =>
    if n = 1 then some 0
    else if n = 2 then some 1
    else if n = 3 then some 0
    else none
  base := fun _ => none
  isRootList := fun n => n == 1
  entity := fun n => if n = 1 then 2 else if n = 0 then 3 else 99
  boolT := 5
  intT := 6
  entityInfoT := 7
  rootNodeT := 8

/-- An entity-of-list collection expression (type 2 in `entityCtx`). -/
def collE : RExpr := RExpr.varE "ents" 2

/-- An integer index expression (type 6 in `entityCtx`). -/
def indexE : RExpr := RExpr.varE "idx" 6

/-- A node-typed item expression (type 0 in `entityCtx`). -/
def itemE : RExpr := RExpr.varE "item0" 0

/-! ### Deferred type references (`TypeRepo.Defer`,
`compiled_types.py:3830-3887`) -/

/-- Value a deferred reference can resolve to: a compiled type (by
identity), a field/property found in a struct's `_fields`, or — opaquely
— the result of a plain `getattr` (the `'new'` attribute, attributes of
non-struct prefixes) or of calling the resolved target (the callee's own
semantics lives outside the embedded sources). -/
inductive DVal where
  | tyV (id : Nat)
  | fieldV (id : Nat)
  | attrV (v : DVal) (name : String)
  | callV (v : DVal) (args : List String)
deriving Repr, DecidableEq

/-- Environment for deferred resolution: `CompiledTypeRepo.type_dict`,
the `isinstance(prefix, BaseStructType)` test and `prefix._fields`. -/
structure DeferCtx where
  type_dict : String → Option Nat
  isStruct : Nat → Bool
  fields : Nat → String → Option Nat

/-- A deferred type reference (`TypeRepo.Defer`): either the
resolve-by-name closure built by `TypeRepo.__getattr__`
(`compiled_types.py:3888-3920`), or a composition recorded by
`Defer.__getattr__` / `Defer.__call__` as a new thunk around the previous
reference. -/
inductive Defer where
  | base (name : String)
  | attr (d : Defer) (name : String)
  | call (d : Defer) (args : List String)
deriving Repr, DecidableEq

/-- The debugging label of a deferred reference, exactly as the source
formats it: `'{}.{}'` for attribute access (`compiled_types.py:3874`) and
`'{}({})'` with comma-joined argument labels for calls
(`compiled_types.py:3883-3885`). -/
def Defer.label : Defer → String
  | .base n => n
  | .attr d n => d.label ++ "." ++ n
  | .call d args => d.label ++ "(" ++ String.intercalate ", " args ++ ")"

/-- `Defer.__getattr__` (`compiled_types.py:3853-3874`): return a new
deferred reference recording the attribute access; the previous
reference's thunk is not invoked. -/
def defer_getattr (d : Defer) (name : String) : Defer := Defer.attr d name

/-- `Defer.__call__` (`compiled_types.py:3876-3886`): return a new
deferred reference recording the invocation; the previous reference's
thunk is not invoked. -/
def defer_call (d : Defer) (args : List String) : Defer := Defer.call d args

/-- The resolve closure of `TypeRepo.__getattr__`
(`compiled_types.py:3895-3911`): look the name up in the registry; an
unbound name is a diagnostic error (`Invalid type name`). -/
def resolve_name (ctx : DeferCtx) (name : String) : Except Diag DVal :=
  match ctx.type_dict name with
  | some t => Except.ok (DVal.tyV t)
  | none => Except.error Diag.diagnosticError

/-- Applying a recorded attribute access to a resolved prefix (the body of
the `get` closure in `Defer.__getattr__`): for the memoized derivation
properties `array`/`list`/`entity` on a compiled type, run the memoized
derivation (this is the plain-`getattr` branch of the source, refined for
those three properties); for `'new'` or a non-struct prefix, a plain
`getattr`, kept opaque; otherwise look the name up in the struct's
`_fields`, a missing field being a diagnostic error. -/
def apply_attr (ctx : DeferCtx) (name : String) (v : DVal) (st : MemoState) :
    Except Diag DVal × MemoState :=
  match v with
  | DVal.tyV id =>
      if name = "array" ∨ name = "list" ∨ name = "entity" then
        let r := memoizedGet id name st
        (Except.ok (DVal.tyV r.1), r.2)
      else if name = "new" ∨ ¬ ctx.isStruct id then
        (Except.ok (DVal.attrV v name), st)
      else
        match ctx.fields id name with
        | some f => (Except.ok (DVal.fieldV f), st)
        | none => (Except.error Diag.diagnosticError, st)
  | _ => (Except.ok (DVal.attrV v name), st)

/-- `Defer.get` / forcing a deferred reference: resolve the underlying
reference, then apply the recorded operation — field/derivation lookup
for attribute accesses, invocation (kept opaque) for calls.  The memo
state threads the memoized `array`/`list`/`entity` derivations that
forcing may trigger. -/
def Defer.force (ctx : DeferCtx) : Defer → MemoState →
    Except Diag DVal × MemoState
  | .base n, st => (resolve_name ctx n, st)
  | .attr d n, st =>
      match d.force ctx st with
      | (Except.ok v, st') => apply_attr ctx n v st'
      | (Except.error e, st') => (Except.error e, st')
  | .call d args, st =>
      match d.force ctx st with
      | (Except.ok v, st') => (Except.ok (DVal.callV v args), st')
      | (Except.error e, st') => (Except.error e, st')

/-- One memo state extends another when it preserves every recorded
memoized derivation. -/
def MemoExtends (s2 s1 : MemoState) : Prop :=
  ∀ k v, memoLookup k s1.memo = some v → memoLookup k s2.memo = some v

/-- Sample deferred-resolution environment: one registered struct type
`"Foo"` (id 0) with a single field `"fld"` (id 42). -/
def deferCtx0 : DeferCtx where
  type_dict := fun n => if n = "Foo" then some 0 else none
  isStruct := fun i => i == 0
  fields := fun i f => if i == 0 && f == "fld" then some 42 else none

/-! ### Theorems -/

/-- Helper: looking a key up right after `memoizedGet` recorded it. -/
theorem memoLookup_head (k : Nat × String) (v : Nat)
    (l : List ((Nat × String) × Nat)) : memoLookup k ((k, v) :: l) = some v := by
  simp [memoLookup]

/-- Requesting the same memoized derivation twice returns the identical
instance and leaves the cache unchanged. -/
theorem memoizedGet_stable (obj : Nat) (prop : String) (s : MemoState) :
    memoizedGet obj prop (memoizedGet obj prop s).2 =
      ((memoizedGet obj prop s).1, (memoizedGet obj prop s).2) := by
  unfold memoizedGet
  cases h : memoLookup (obj, prop) s.memo with
  | some v => simp [h]
  | none => simp [h, memoLookup_head]

/-- C1: for every compiled type `t`, requesting `t.array` twice returns the
identical `ArrayType` instance, and for every AST node type `n`,
requesting `n.list` twice and `n.entity` twice each return the identical
instance, in any cache context `s` (so no matter how many earlier
derivation requests happened): the second request returns the same
identity as the first and allocates nothing. -/
theorem derived_types_identity_stable (t n : Nat) (s : MemoState) :
    (CompiledType.array t (CompiledType.array t s).2 =
      ((CompiledType.array t s).1, (CompiledType.array t s).2)) ∧
    (ASTNodeType.list n (ASTNodeType.list n s).2 =
      ((ASTNodeType.list n s).1, (ASTNodeType.list n s).2)) ∧
    (ASTNodeType.entity n (ASTNodeType.entity n s).2 =
      ((ASTNodeType.entity n s).1, (ASTNodeType.entity n s).2)) :=
  ⟨memoizedGet_stable t "array" s,
   memoizedGet_stable n "list" s,
   memoizedGet_stable n "entity" s⟩

/-- C3 counterexample: with `"T"` already bound to the type with identity
`1`, registering a different type (identity `2`) under the same name does
not fail: the registration succeeds and silently rebinds `"T"` to the new
type, and the old binding is gone. -/
theorem register_type_rebind_counterexample :
    register_type "T" 2 [("T", 1)] = Except.ok [("T", 2)] ∧
    lookup_type "T" [("T", 2)] = some 2 ∧
    lookup_type "T" [("T", 1)] = some 1 := by
  refine ⟨?_, by decide, by decide⟩
  simp [register_type, List.filter]

/-- C3 amended: registering a type under any name never fails, and the
resulting registry binds the name to the newly registered type (last
registration wins), even when the name was already bound to a different
type. -/
theorem register_type_always_rebinds (name : String) (t : Nat)
    (d : TypeDict) :
    ∃ d', register_type name t d = Except.ok d' ∧
      lookup_type name d' = some t := by
  refine ⟨(name, t) :: d.filter (fun p => p.1 ≠ name), rfl, ?_⟩
  simp [lookup_type]

/-- Helper for C9: a sequence of checks all at non-blocking severity never
raises, and it records the pending-error flag iff it started set or some
predicate in the sequence is false. -/
theorem run_checks_non_blocking (l : List (Bool × Severity))
    (st : DiagnosticsState)
    (h : ∀ c ∈ l, c.2 = Severity.non_blocking_error) :
    (run_checks l st).1 = Except.ok () ∧
    ((run_checks l st).2.has_pending_error =
      (st.has_pending_error || l.any (fun c => !c.1))) := by
  induction l generalizing st with
  | nil => simp [run_checks]
  | cons c rest ih =>
      have hc : c.2 = Severity.non_blocking_error := h c (by simp)
      have hrest : ∀ c' ∈ rest, c'.2 = Severity.non_blocking_error :=
        fun c' hc' => h c' (by simp [hc'])
      cases hp : c.1 with
      | true =>
          have := ih st hrest
          simp [run_checks, check_source_language, hp, hc, this.1, this.2]
      | false =>
          have := ih { st with has_pending_error := true } hrest
          simp [run_checks, check_source_language, hp, hc, this.1, this.2]

/-- C9: a false predicate checked at non-blocking-error severity raises no
exception at the check site and records the pending-error flag (so a
validation pass made of such checks runs them all); `errors_checkpoint`
raises if and only if the flag is set, and clears it exactly in that
case. -/
theorem non_blocking_checks_and_checkpoint (dr : Bool)
    (st st' : DiagnosticsState) (l : List (Bool × Severity))
    (hl : ∀ c ∈ l, c.2 = Severity.non_blocking_error) :
    check_source_language false Severity.non_blocking_error dr st =
      (Except.ok (), { st with has_pending_error := true }) ∧
    (run_checks l st).1 = Except.ok () ∧
    ((errors_checkpoint st').1 = Except.error Diag.diagnosticError ↔
      st'.has_pending_error = true) ∧
    (st'.has_pending_error = true →
      errors_checkpoint st' =
        (Except.error Diag.diagnosticError, { has_pending_error := false })) ∧
    (st'.has_pending_error = false →
      errors_checkpoint st' = (Except.ok (), st')) := by
  refine ⟨?_, (run_checks_non_blocking l st hl).1, ?_, ?_, ?_⟩
  · simp [check_source_language]
  · cases h : st'.has_pending_error <;> simp [errors_checkpoint, h]
  · intro h; simp [errors_checkpoint, h]
  · intro h; simp [errors_checkpoint, h]

/-- C9 witness: instantiation at a concrete failing check and concrete
diagnostics states. -/
theorem non_blocking_checks_and_checkpoint_witness :
    check_source_language false Severity.non_blocking_error true ⟨false⟩ =
      (Except.ok (), ⟨true⟩) ∧
    (run_checks [(false, Severity.non_blocking_error),
                 (false, Severity.non_blocking_error)] ⟨false⟩).1 =
      Except.ok () ∧
    ((errors_checkpoint ⟨true⟩).1 = Except.error Diag.diagnosticError ↔
      (true : Bool) = true) ∧
    ((true : Bool) = true →
      errors_checkpoint ⟨true⟩ =
        (Except.error Diag.diagnosticError, { has_pending_error := false })) ∧
    ((true : Bool) = false → errors_checkpoint ⟨true⟩ = (Except.ok (), ⟨true⟩)) := by
  have h := non_blocking_checks_and_checkpoint true ⟨false⟩ ⟨true⟩
    [(false, Severity.non_blocking_error), (false, Severity.non_blocking_error)]
    (by decide)
  exact h

/-- Helper: membership in a left fold of `TypeSet.update` steps. -/
theorem mem_foldl_update {α : Type} (g : α → TS) (l : List α) (init : TS)
    (t : Nat) :
    (t ∈ l.foldl (fun acc x => TS.update acc (g x)) init) ↔
      t ∈ init ∨ ∃ x ∈ l, t ∈ g x := by
  induction l generalizing init with
  | nil => simp
  | cons y ys ih =>
      rw [List.foldl_cons, ih]
      simp only [TS.update, List.mem_append, List.mem_cons]
      constructor
      · rintro ((h | h) | ⟨x, hx, ht⟩)
        · exact Or.inl h
        · exact Or.inr ⟨y, Or.inl rfl, h⟩
        · exact Or.inr ⟨x, Or.inr hx, ht⟩
      · rintro (h | ⟨x, hx | hx, ht⟩)
        · exact Or.inl (Or.inl h)
        · exact Or.inl (Or.inr (hx ▸ ht))
        · exact Or.inr ⟨x, hx, ht⟩

/-- C4: for an abstract (non-null) parse field, after the precise-type
inference pass the stored `precise_types` set is exactly the union of the
stored `precise_types` sets of its concrete overriding fields (read, as in
the source, from the overriders the pass just annotated), and, when the
field holds a list, the stored `precise_element_types` set is exactly the
union of the overriders' stored `precise_element_types` sets. -/
theorem abstract_field_precise_types_union (F : Field)
    (hab : F.abstract = true) (hnl : F.null = false) :
    (∀ t, t ∈ F.compute_precise_types.pt.getD [] ↔
      ∃ c ∈ F.compute_precise_types.concrete_fields, t ∈ c.pt.getD []) ∧
    (F.is_list = true →
      ∀ t, t ∈ F.compute_precise_types.pet.getD [] ↔
        ∃ c ∈ F.compute_precise_types.concrete_fields, t ∈ c.pet.getD []) := by
  obtain ⟨ab, nl, sy, il, ty, el, cfs, ps, pt0, pet0⟩ := F
  simp only [Field.abstract] at hab
  simp only [Field.null] at hnl
  subst hab hnl
  constructor
  · intro t
    simp only [Field.compute_precise_types, Bool.false_eq_true, if_false,
      if_true, Field.pt, Field.concrete_fields, Option.getD_some]
    exact (mem_foldl_update _ _ [] t).trans (by simp)
  · intro hil t
    simp only [Field.is_list] at hil
    subst hil
    simp only [Field.compute_precise_types, Bool.false_eq_true, if_false,
      if_true, Field.pet, Field.concrete_fields, Option.getD_some]
    exact (mem_foldl_update _ _ [] t).trans (by simp)

/-- C4 witness: on the sample abstract field (overridden by two concrete
fields whose parsers contribute the node types 3 and 4), the node type 3
is in the computed `precise_types` set; obtained through the union
characterization. -/
theorem abstract_field_precise_types_union_witness :
    sampleAbstractField.abstract = true ∧
    sampleAbstractField.null = false ∧
    3 ∈ sampleAbstractField.compute_precise_types.pt.getD [] := by
  refine ⟨rfl, rfl, ?_⟩
  have h := (abstract_field_precise_types_union sampleAbstractField rfl rfl).1 3
  apply h.mpr
  refine ⟨sampleConcreteField.compute_precise_types, ?_, ?_⟩
  · simp [sampleAbstractField, Field.compute_precise_types,
      Field.concrete_fields, sampleConcreteField, sampleConcreteField2]
  · simp [sampleConcreteField, Field.compute_precise_types, Field.pt,
      TS.update]

/-- Helper: `Field._compute_precise_types` is idempotent: recomputing an
already-annotated field recomputes exactly the same annotations. -/
theorem Field.compute_idem (f : Field) :
    f.compute_precise_types.compute_precise_types = f.compute_precise_types := by
  obtain ⟨ab, nl, sy, il, ty, el, cfs, ps, pt0, pet0⟩ := f
  by_cases hnl : nl
  · simp [Field.compute_precise_types, hnl]
  · by_cases hab : ab
    · have hfix :
          ∀ x ∈ cfs.attach.map (fun c => Field.compute_precise_types c.1),
            Field.compute_precise_types x = x := by
        intro x hx
        obtain ⟨⟨y, hy⟩, _, rfl⟩ := List.mem_map.mp hx
        exact Field.compute_idem y
      simp only [Field.compute_precise_types, hnl, hab, Bool.false_eq_true,
        if_false, if_true]
      have hmap :
          (cfs.attach.map (fun c => Field.compute_precise_types c.1)).attach.map
              (fun c => Field.compute_precise_types c.1) =
            cfs.attach.map (fun c => Field.compute_precise_types c.1) := by
        rw [List.attach_map_val]
        exact (List.map_congr_left (fun a ha => hfix a ha)).trans
          (List.map_id _)
      simp [hmap]
    · by_cases hsy : sy <;>
        simp [Field.compute_precise_types, hnl, hab, hsy]
decreasing_by
  have h1 := List.sizeOf_lt_of_mem hy
  simp only [Field.mk.sizeOf_spec]
  omega

/-- C5 counterexample: `sampleNode` is a non-list node with one parse
field.  After one run of `compute_precise_fields_types` every
`precise_types` set of the node is computed (the single field's slot holds
the set containing node type 3), yet running the pass again on that node
is not skipped: it performs one field recomputation (`run_cost` 1, not
0). -/
theorem precise_fields_types_skip_counterexample :
    (sampleNode.compute_precise_fields_types).fields.map Field.pt =
      [some [3]] ∧
    (sampleNode.compute_precise_fields_types).run_cost = 1 ∧
    (sampleNode.compute_precise_fields_types).run_cost ≠ 0 := by
  refine ⟨?_, ?_, ?_⟩ <;>
    simp [sampleNode, sampleConcreteField, PNode.compute_precise_fields_types,
      Field.compute_precise_types, PNode.run_cost, PNode.fields, Field.pt,
      TS.update]

/-- C5 amended: the precise-type inference pass is idempotent in its
results — running `compute_precise_fields_types` a second time leaves
every `precise_types` / `precise_element_types` /
`precise_list_element_types` set (indeed the entire annotated node) equal
to the result of the first run — but the skip applies only to list nodes:
a list node whose `precise_list_element_types` is already computed returns
immediately without recomputation, while a non-list node re-runs the
computation of each of its parse fields (producing identical sets). -/
theorem precise_fields_types_idempotent_list_skip (N : PNode) :
    N.compute_precise_fields_types.compute_precise_fields_types =
      N.compute_precise_fields_types ∧
    (N.is_list = true → N.plet.isSome = true →
      N.compute_precise_fields_types = N ∧ N.run_cost = 0) := by
  obtain ⟨il, pl, subs, lps, flds⟩ := N
  constructor
  · by_cases hil : il
    · by_cases hpl : pl.isSome
      · simp [PNode.compute_precise_fields_types, hil, hpl]
      · simp only [PNode.compute_precise_fields_types, hil, hpl, if_true,
          Bool.false_eq_true, if_false]
        simp [PNode.compute_precise_fields_types]
    · simp only [PNode.compute_precise_fields_types, hil, Bool.false_eq_true,
        if_false]
      have : (flds.map Field.compute_precise_types).map
          Field.compute_precise_types = flds.map Field.compute_precise_types := by
        rw [List.map_map]
        exact List.map_congr_left (fun a _ => Field.compute_idem a)
      simp [this]
  · intro hil hpl
    simp only [PNode.is_list] at hil
    simp only [PNode.plet] at hpl
    subst hil
    constructor
    · simp [PNode.compute_precise_fields_types, hpl]
    · simp [PNode.run_cost, hpl]

/-- C5 witness for the amended claim: on the sample already-computed list
node the pass is skipped (the node is returned unchanged at zero cost),
and idempotence holds on the sample non-list node. -/
theorem precise_fields_types_idempotent_list_skip_witness :
    sampleComputedListNode.compute_precise_fields_types =
        sampleComputedListNode ∧
    sampleComputedListNode.run_cost = 0 ∧
    sampleNode.compute_precise_fields_types.compute_precise_fields_types =
      sampleNode.compute_precise_fields_types := by
  have h1 := (precise_fields_types_idempotent_list_skip
    sampleComputedListNode).2 rfl rfl
  have h2 := (precise_fields_types_idempotent_list_skip sampleNode).1
  exact ⟨h1.1, h1.2, h2⟩

/-- Unfolding equation for `concrete_subclasses` without `attach`. -/
theorem concrete_subclasses_eq (i : Nat) (ab : Bool) (h : String)
    (sb : List ANode) :
    (ANode.mk i ab h sb).concrete_subclasses =
      (if ab then [] else [ANode.mk i ab h sb]) ++
        ((sortByHName sb).map ANode.concrete_subclasses).flatten := by
  rw [ANode.concrete_subclasses]
  congr 1
  congr 1
  exact List.attach_map_val _ _

/-- Unfolding equation for `subtree` without `attach`. -/
theorem subtree_eq (i : Nat) (ab : Bool) (h : String) (sb : List ANode) :
    (ANode.mk i ab h sb).subtree =
      ANode.mk i ab h sb :: (sb.map ANode.subtree).flatten := by
  rw [ANode.subtree]
  congr 1
  congr 1
  exact List.attach_map_val _ _

/-- Membership in a subtree: the node itself or inside a direct
subclass's subtree. -/
theorem mem_subtree_iff (x : ANode) (i : Nat) (ab : Bool) (h : String)
    (sb : List ANode) :
    x ∈ (ANode.mk i ab h sb).subtree ↔
      x = ANode.mk i ab h sb ∨ ∃ c ∈ sb, x ∈ c.subtree := by
  rw [subtree_eq]
  simp [List.mem_flatten]

/-- Helper: membership in a sorted subclass list is membership in the
subclass list. -/
theorem mem_sortByHName (c : ANode) (l : List ANode) :
    c ∈ sortByHName l ↔ c ∈ l := by
  exact (List.mergeSort_perm l _).mem_iff

/-- Soundness/completeness of `concrete_subclasses`: its members are
exactly the non-abstract nodes of the subtree. -/
theorem mem_concrete_subclasses (N x : ANode) :
    x ∈ N.concrete_subclasses ↔ x ∈ N.subtree ∧ x.abstract = false := by
  obtain ⟨i, ab, h, sb⟩ := N
  rw [concrete_subclasses_eq, mem_subtree_iff]
  simp only [List.mem_append, List.mem_flatten, List.mem_map]
  constructor
  · rintro (hx | ⟨l, ⟨c, hc, rfl⟩, hxl⟩)
    · cases ab with
      | true => simp at hx
      | false =>
          simp at hx
          subst hx
          exact ⟨Or.inl rfl, rfl⟩
    · have hc' : c ∈ sb := (mem_sortByHName c sb).mp hc
      have := (mem_concrete_subclasses c x).mp hxl
      exact ⟨Or.inr ⟨c, hc', this.1⟩, this.2⟩
  · rintro ⟨hx | ⟨c, hc, hxc⟩, habx⟩
    · subst hx
      simp only [ANode.abstract] at habx
      subst habx
      exact Or.inl (by simp)
    · have hc' : c ∈ sb := hc
      refine Or.inr ⟨c.concrete_subclasses, ⟨c, (mem_sortByHName c sb).mpr hc,
        rfl⟩, ?_⟩
      exact (mem_concrete_subclasses c x).mpr ⟨hxc, habx⟩
termination_by sizeOf N
decreasing_by
  all_goals
    have h1 := List.sizeOf_lt_of_mem hc'
    simp only [ANode.mk.sizeOf_spec]
    omega

/-- The concrete subclasses of a descendant form a contiguous slice of the
concrete subclasses of an ancestor. -/
theorem concrete_subclasses_infix :
    ∀ (R N : ANode), N ∈ R.subtree →
      N.concrete_subclasses <:+: R.concrete_subclasses
  | .mk i ab h sb, N, hm => by
    rw [mem_subtree_iff] at hm
    rcases hm with rfl | ⟨c, hc, hNc⟩
    · exact List.infix_refl _
    · have h1 : N.concrete_subclasses <:+: c.concrete_subclasses :=
        concrete_subclasses_infix c N hNc
      have h2 : c.concrete_subclasses <:+:
          ((sortByHName sb).map ANode.concrete_subclasses).flatten :=
        List.infix_of_mem_flatten
          (List.mem_map_of_mem _ ((mem_sortByHName c sb).mpr hc))
      have h3 : ((sortByHName sb).map ANode.concrete_subclasses).flatten <:+:
          (ANode.mk i ab h sb).concrete_subclasses := by
        rw [concrete_subclasses_eq]
        exact ⟨if ab then [] else [ANode.mk i ab h sb], [], by simp⟩
      exact (h1.trans h2).trans h3
termination_by R _ _ => sizeOf R
decreasing_by
  have h1 := List.sizeOf_lt_of_mem hc
  simp only [ANode.mk.sizeOf_spec]
  omega

/-- Generic positional fact: in a duplicate-free list split as
`pre ++ mid ++ post`, the element at position `i` lies in `mid` exactly
when `i` falls in the contiguous block of `mid` positions. -/
theorem get_mem_middle_iff {α : Type} (pre mid post : List α)
    (hnd : (pre ++ (mid ++ post)).Nodup) (i : Nat)
    (hi : i < (pre ++ (mid ++ post)).length) :
    (pre ++ (mid ++ post)).get ⟨i, hi⟩ ∈ mid ↔
      pre.length ≤ i ∧ i < pre.length + mid.length := by
  constructor
  · intro hmem
    obtain ⟨⟨j, hj⟩, hget⟩ := List.mem_iff_get.mp hmem
    have hlen : pre.length + j < (pre ++ (mid ++ post)).length := by
      simp only [List.length_append]
      omega
    have hstep : (pre ++ (mid ++ post)).get ⟨pre.length + j, hlen⟩ =
        mid.get ⟨j, hj⟩ := by
      have e1 := @List.get_append_right _ (pre.length + j) pre (mid ++ post)
        (by omega) hlen (by simp only [List.length_append]; omega)
      rw [e1]
      have e2 := @List.get_append_left _ (pre.length + j - pre.length) mid post
        (by omega) (by simp only [List.length_append]; omega)
      simp only [Nat.add_sub_cancel_left] at e2 ⊢
      rw [e2]
    have heq2 : (pre ++ (mid ++ post)).get ⟨i, hi⟩ =
        (pre ++ (mid ++ post)).get ⟨pre.length + j, hlen⟩ := by
      rw [hstep, hget]
    have := (hnd.get_inj_iff).mp heq2
    have hij : i = pre.length + j := by
      simpa using congrArg Fin.val this
    omega
  · rintro ⟨h1, h2⟩
    have hj : i - pre.length < mid.length := by omega
    have e1 := @List.get_append_right _ i pre (mid ++ post) h1 hi
      (by simp only [List.length_append]; omega)
    have e2 := @List.get_append_left _ (i - pre.length) mid post hj
      (by simp only [List.length_append]; omega)
    rw [e1, e2]
    exact List.get_mem mid _ hj

/-- C2: for every node `N` in the hierarchy rooted at `R` (the global
node-kind ordering being the position in `R.concrete_subclasses`, which
is what the code generator enumerates and what `ada_kind_range_bounds`
takes its first/last elements from), `N.concrete_subclasses` is a
contiguous slice `pre ++ N.concrete_subclasses ++ post` of the global
ordering; its members are exactly the concrete nodes of `N`'s subtree (N
itself when concrete, and its direct or indirect concrete descendants);
and, provided the global ordering has no duplicates, the node at global
position `i` is a concrete node of `N`'s subtree iff `i` lies between the
first and last positions of that slice. -/
theorem concrete_subclasses_contiguous_kind_range (R N : ANode)
    (hmem : N ∈ R.subtree) (hnd : R.concrete_subclasses.Nodup) :
    ∃ pre post,
      R.concrete_subclasses = pre ++ N.concrete_subclasses ++ post ∧
      (∀ x, x ∈ N.concrete_subclasses ↔
        x ∈ N.subtree ∧ x.abstract = false) ∧
      (∀ i (hi : i < R.concrete_subclasses.length),
        (R.concrete_subclasses.get ⟨i, hi⟩ ∈ N.subtree ∧
            (R.concrete_subclasses.get ⟨i, hi⟩).abstract = false) ↔
          (pre.length ≤ i ∧
            i < pre.length + N.concrete_subclasses.length)) := by
  obtain ⟨pre, post, heq⟩ := concrete_subclasses_infix R N hmem
  refine ⟨pre, post, heq.symm, fun x => mem_concrete_subclasses N x, ?_⟩
  have heqr : R.concrete_subclasses =
      pre ++ (N.concrete_subclasses ++ post) := by
    rw [← List.append_assoc]
    exact heq.symm
  intro i hi
  have hi' : i < (pre ++ (N.concrete_subclasses ++ post)).length := by
    rw [← heqr]; exact hi
  have hg : R.concrete_subclasses.get ⟨i, hi⟩ =
      (pre ++ (N.concrete_subclasses ++ post)).get ⟨i, hi'⟩ :=
    List.get_of_eq heqr ⟨i, hi⟩
  have hnd' : (pre ++ (N.concrete_subclasses ++ post)).Nodup := by
    rw [← heqr]; exact hnd
  rw [hg, ← mem_concrete_subclasses N]
  exact get_mem_middle_iff pre N.concrete_subclasses post hnd' i hi'

/-- Helper: every node is in its own subtree. -/
theorem self_mem_subtree (n : ANode) : n ∈ n.subtree := by
  obtain ⟨i, ab, h, sb⟩ := n
  rw [subtree_eq]
  simp

/-- C2 witness: in the sample hierarchy (abstract root `rootA`, concrete
node `kidB`, concrete leaf `kidD`), the hypotheses of the contiguity
theorem hold and, through its membership characterization, the concrete
descendant `kidD` belongs to `kidB.concrete_subclasses`. -/
theorem concrete_subclasses_contiguous_kind_range_witness :
    kidB ∈ rootA.subtree ∧
    rootA.concrete_subclasses.Nodup ∧
    kidD ∈ kidB.concrete_subclasses := by
  have hD : kidD.concrete_subclasses = [kidD] := by
    show (ANode.mk 2 false "A.B.D" []).concrete_subclasses = _
    rw [concrete_subclasses_eq]
    simp [sortByHName, kidD]
  have hB : kidB.concrete_subclasses = [kidB, kidD] := by
    show (ANode.mk 1 false "A.B" [kidD]).concrete_subclasses = _
    rw [concrete_subclasses_eq]
    simp [sortByHName, hD, kidB]
  have hA : rootA.concrete_subclasses = [kidB, kidD] := by
    show (ANode.mk 0 true "A" [kidB]).concrete_subclasses = _
    rw [concrete_subclasses_eq]
    simp [sortByHName, hB]
  have hmem : kidB ∈ rootA.subtree := by
    show kidB ∈ (ANode.mk 0 true "A" [kidB]).subtree
    rw [mem_subtree_iff]
    exact Or.inr ⟨kidB, by simp, self_mem_subtree kidB⟩
  have hnd : rootA.concrete_subclasses.Nodup := by
    rw [hA]
    simp [kidB, kidD]
  refine ⟨hmem, hnd, ?_⟩
  obtain ⟨pre, post, heq, hchar, hpos⟩ :=
    concrete_subclasses_contiguous_kind_range rootA kidB hmem hnd
  apply (hchar kidD).mpr
  constructor
  · show kidD ∈ (ANode.mk 1 false "A.B" [kidD]).subtree
    rw [mem_subtree_iff]
    exact Or.inr ⟨kidD, by simp, self_mem_subtree kidD⟩
  · rfl

/-- C6: under the memoization invariant for array types (one array type
per element type — spec §3, established by the memoized
`CompiledType.array`), `Concat.construct` produces a typed result exactly
when both operand types are array types with the same element type (the
identity check `array_1.type == array_2.type` admits no subtyping
coercion between different element types), and the result then carries
the first operand's array type; in every other case construction fails
with a diagnostic. -/
theorem concat_requires_identical_array_types (ctx : TypeCtx) (t1 t2 : Nat)
    (hmemo : ∀ a b, ctx.kind a = TKind.array → ctx.kind b = TKind.array →
      ctx.elem a = ctx.elem b → a = b) :
    ((∃ r, concat_construct ctx t1 t2 = Except.ok r) ↔
      (ctx.kind t1 = TKind.array ∧ ctx.kind t2 = TKind.array ∧
        ctx.elem t1 = ctx.elem t2)) ∧
    (∀ r, concat_construct ctx t1 t2 = Except.ok r → r = t1) := by
  constructor
  · constructor
    · rintro ⟨r, hr⟩
      simp only [concat_construct, TypeCtx.is_array_type] at hr
      by_cases h1 : ctx.kind t1 = TKind.array
      · by_cases h2 : ctx.kind t2 = TKind.array
        · by_cases h12 : t1 = t2
          · subst h12
            exact ⟨h1, h2, rfl⟩
          · simp [h1, h2, h12] at hr
        · simp [h1, h2] at hr
      · simp [h1] at hr
    · rintro ⟨h1, h2, he⟩
      have h12 : t1 = t2 := hmemo t1 t2 h1 h2 he
      subst h12
      exact ⟨t1, by simp [concat_construct, TypeCtx.is_array_type, h1]⟩
  · intro r hr
    simp only [concat_construct, TypeCtx.is_array_type] at hr
    by_cases h1 : ctx.kind t1 = TKind.array
    · by_cases h2 : ctx.kind t2 = TKind.array
      · by_cases h12 : t1 = t2
        · subst h12
          simp [h1, h2] at hr
          omega
        · simp [h1, h2, h12] at hr
      · simp [h1, h2] at hr
    · simp [h1] at hr

/-- Helper: in `arrayCtx`, the only array types are 10 and 11. -/
theorem arrayCtx_array_ids (a : Nat) (ha : arrayCtx.kind a = TKind.array) :
    a = 10 ∨ a = 11 := by
  by_cases h1 : a = 10
  · exact Or.inl h1
  · by_cases h2 : a = 11
    · exact Or.inr h2
    · exfalso
      by_cases h3 : a = 0 <;> by_cases h4 : a = 1 <;>
        simp [arrayCtx, h1, h2, h3, h4] at ha

/-- Helper: `arrayCtx` satisfies the one-array-type-per-element-type
memoization invariant. -/
theorem arrayCtx_memo (a b : Nat) (ha : arrayCtx.kind a = TKind.array)
    (hb : arrayCtx.kind b = TKind.array)
    (he : arrayCtx.elem a = arrayCtx.elem b) : a = b := by
  rcases arrayCtx_array_ids a ha with rfl | rfl <;>
    rcases arrayCtx_array_ids b hb with rfl | rfl <;>
      simp [arrayCtx] at he ⊢

/-- C6 witness: in `arrayCtx`, concatenating two arrays-of-node-0 yields
that array type, while concatenating array-of-node-0 with array-of-node-1
fails with a diagnostic even though node 1 is a subtype of node 0 (its
inheritance chain contains node 0). -/
theorem concat_requires_identical_array_types_witness :
    concat_construct arrayCtx 10 10 = Except.ok 10 ∧
    concat_construct arrayCtx 10 11 = Except.error Diag.diagnosticError ∧
    arrayCtx.inChain 2 1 0 = true := by
  have h := concat_requires_identical_array_types arrayCtx 10 10 arrayCtx_memo
  obtain ⟨r, hr⟩ := h.1.mpr ⟨by simp [arrayCtx], by simp [arrayCtx], rfl⟩
  have hr10 : r = 10 := h.2 r hr
  subst hr10
  refine ⟨hr, ?_, ?_⟩
  · simp [concat_construct, TypeCtx.is_array_type, arrayCtx]
  · simp [TypeCtx.inChain, arrayCtx]

/-- Helper: a successful run of the shared construction path has an index
variable exactly when the iteration lambda declared one, and its inner
expression is the constructed body applied to the element variable. -/
theorem construct_common_ok_shape (ctx : TypeCtx) (c : RExpr)
    (innerF : RExpr → RExpr) (b : Bool) (r : CCResult)
    (h : construct_common ctx c innerF b = Except.ok r) :
    r.index_var = (if b then some (RExpr.varE "i" ctx.intT) else none) ∧
    ∃ ev, r.inner_expr = innerF ev := by
  unfold construct_common at h
  dsimp only [] at h
  split at h <;> split at h <;>
    first
    | exact Except.noConfusion h
    | (rw [Except.ok.injEq] at h
       subst h
       exact ⟨rfl, _, rfl⟩)

/-- C10: `Contains.construct` is exactly the ANY-quantifier construction
applied to the element-equals-item predicate (both run the same shared
`construct_common` path; the quantifier path's additional boolean check
is satisfied because equality is boolean-typed); in particular any
successful `contains` compilation yields a boolean-typed
`Quantifier.Expr` of ANY kind with no index variable. -/
theorem contains_is_any_quantifier (ctx : TypeCtx) (fuel : Nat)
    (hf : 0 < fuel) (hkb : ctx.kind ctx.boolT = TKind.bool)
    (coll item : RExpr) :
    contains_construct ctx coll item =
      contains_via_any_quantifier ctx fuel coll item ∧
    (∀ res, contains_construct ctx coll item = Except.ok res →
      res.tyOf ctx = ctx.boolT ∧
      ∃ cE iE ev, res = RExpr.quantExpr "any" cE iE ev none) := by
  have hmb : ctx.matches fuel ctx.boolT ctx.boolT = true := by
    obtain ⟨f, rfl⟩ : ∃ f, fuel = f + 1 := ⟨fuel - 1, by omega⟩
    simp [TypeCtx.matches, TypeCtx.is_entity_type, TypeCtx.is_ast_node, hkb]
  unfold contains_construct contains_via_any_quantifier quantifier_construct
  cases hcc : construct_common ctx coll (fun v => RExpr.eqE v item) false with
  | error e => simp
  | ok r =>
      obtain ⟨hidx, ev, hinner⟩ := construct_common_ok_shape _ _ _ _ _ hcc
      simp only [if_neg (by simp : ¬(false = true))] at hidx
      constructor
      · have htyi : r.inner_expr.tyOf ctx = ctx.boolT := by
          rw [hinner]
          rfl
        simp [hidx, htyi, hmb]
      · intro res hres
        simp only [hidx] at hres
        simp only [Option.isSome_none] at hres
        simp only [Bool.false_eq_true, if_false, Except.ok.injEq] at hres
        subst hres
        exact ⟨rfl, r.collection_expr, r.inner_expr, r.element_vars, rfl⟩

/-- C10 witness: on the sample entity-of-list collection and node item,
`contains` construction coincides with the ANY-quantifier construction,
by the refinement theorem at fuel 1. -/
theorem contains_is_any_quantifier_witness :
    0 < 1 ∧ entityCtx.kind entityCtx.boolT = TKind.bool ∧
    contains_construct entityCtx collE itemE =
      contains_via_any_quantifier entityCtx 1 collE itemE := by
  refine ⟨by decide, by simp [entityCtx], ?_⟩
  exact (contains_is_any_quantifier entityCtx 1 (by decide)
    (by simp [entityCtx]) collE itemE).1

/-- C7: when the collection expression's type is an Entity wrapping a
(list) collection node, the shared construction path destructures it into
the bare collection (iteration runs over bare elements) and one
entity-info value, and the element variable is initialized by re-wrapping
the bare element with that same entity-info value; likewise
`collection_get` (`.at`) destructures, selects from the bare collection,
and re-wraps the selected result with the same entity-info value, so
every emitted element carries the original collection's
rebindings/metadata. -/
theorem entity_collection_ops_preserve_entity_info
    (ctx : TypeCtx) (coll index : RExpr) (inner : RExpr → RExpr)
    (fuel : Nat) (or_null : Bool) (nty elemTy : Nat)
    (hkE : ctx.kind (coll.tyOf ctx) = TKind.entity)
    (hbare : ctx.elem (coll.tyOf ctx) = some nty)
    (hknode : ctx.kind nty = TKind.node)
    (hcoll : ctx.elem nty = some elemTy)
    (hEnt : ctx.elem (ctx.entity elemTy) = some elemTy)
    (hroot : ctx.isRootList nty = true)
    (hidx : index.tyOf ctx = ctx.intT)
    (hfuel : 0 < fuel) :
    construct_common ctx coll inner false = Except.ok
      { collection_expr := RExpr.sequenceExpr coll
          (RExpr.fieldAccessE coll "Node" nty)
        element_vars :=
          [(RExpr.varE "item" (ctx.entity elemTy),
            some (RExpr.asEntityE (RExpr.varE "bare_item" elemTy)
              (RExpr.fieldAccessE coll "Info" ctx.entityInfoT)
              (ctx.entity elemTy))),
           (RExpr.varE "bare_item" elemTy,
            some (RExpr.uncheckedCast
              (RExpr.varE "untyped_item" ctx.rootNodeT) elemTy)),
           (RExpr.varE "untyped_item" ctx.rootNodeT, none)]
        index_var := none
        inner_expr := inner (RExpr.varE "item" (ctx.entity elemTy)) } ∧
    collection_get ctx fuel coll index or_null = Except.ok
      (RExpr.sequenceExpr coll
        (RExpr.asEntityE
          (RExpr.callE "Get_Result" "Get" elemTy
            [RExpr.convertNode
              (RExpr.nullCheckE (RExpr.fieldAccessE coll "Node" nty) false)
              nty,
             index, RExpr.boolLit or_null])
          (RExpr.fieldAccessE coll "Info" ctx.entityInfoT)
          (ctx.entity elemTy))) := by
  obtain ⟨f, rfl⟩ : ∃ f, fuel = f + 1 := ⟨fuel - 1, by omega⟩
  constructor
  · simp [construct_common, destructure_entity, make_as_entity,
      TypeCtx.is_entity_type, TypeCtx.is_collection, TypeCtx.is_ast_node,
      TypeCtx.is_list_type, RExpr.tyOf, hkE, hbare, hknode, hcoll, hEnt,
      List.getLast]
  · simp [collection_get, destructure_entity, make_as_entity,
      canonicalize_list_to_root, findRootList, TypeCtx.is_entity_type,
      TypeCtx.is_collection, TypeCtx.is_ast_node, RExpr.tyOf, hkE, hbare,
      hknode, hcoll, hroot, hidx]

/-- C7 witness: on the sample entity-of-list collection (type 2 wrapping
list node 1 of element node 0 in `entityCtx`), both the shared
construction path and `.at` destructure the entity and re-wrap with the
same entity-info access. -/
theorem entity_collection_ops_preserve_entity_info_witness :
    entityCtx.kind (collE.tyOf entityCtx) = TKind.entity ∧
    construct_common entityCtx collE id false = Except.ok
      { collection_expr := RExpr.sequenceExpr collE
          (RExpr.fieldAccessE collE "Node" 1)
        element_vars :=
          [(RExpr.varE "item" 3,
            some (RExpr.asEntityE (RExpr.varE "bare_item" 0)
              (RExpr.fieldAccessE collE "Info" 7) 3)),
           (RExpr.varE "bare_item" 0,
            some (RExpr.uncheckedCast (RExpr.varE "untyped_item" 8) 0)),
           (RExpr.varE "untyped_item" 8, none)]
        index_var := none
        inner_expr := id (RExpr.varE "item" 3) } ∧
    collection_get entityCtx 1 collE indexE true = Except.ok
      (RExpr.sequenceExpr collE
        (RExpr.asEntityE
          (RExpr.callE "Get_Result" "Get" 0
            [RExpr.convertNode
              (RExpr.nullCheckE (RExpr.fieldAccessE collE "Node" 1) false) 1,
             indexE, RExpr.boolLit true])
          (RExpr.fieldAccessE collE "Info" 7) 3)) := by
  have h := entity_collection_ops_preserve_entity_info entityCtx collE
    indexE id 1 true 1 0 rfl rfl rfl rfl rfl rfl rfl (by decide)
  exact ⟨rfl, h.1, h.2⟩

/-- Helper: `MemoExtends` is reflexive. -/
theorem memoExtends_refl (s : MemoState) : MemoExtends s s :=
  fun _ _ h => h

/-- Helper: `MemoExtends` is transitive. -/
theorem memoExtends_trans {s3 s2 s1 : MemoState} (h32 : MemoExtends s3 s2)
    (h21 : MemoExtends s2 s1) : MemoExtends s3 s1 :=
  fun k v h => h32 k v (h21 k v h)

/-- Helper: unfolding `memoLookup` one step. -/
theorem memoLookup_cons (k k' : Nat × String) (v : Nat)
    (l : List ((Nat × String) × Nat)) :
    memoLookup k ((k', v) :: l) =
      if k' = k then some v else memoLookup k l := rfl

/-- Helper: a memoized derivation only grows the cache. -/
theorem memoizedGet_extends (o : Nat) (p : String) (s : MemoState) :
    MemoExtends (memoizedGet o p s).2 s := by
  intro k v hk
  unfold memoizedGet
  cases h : memoLookup (o, p) s.memo with
  | some w => simpa using hk
  | none =>
      simp only []
      rw [memoLookup_cons]
      split
      · next heq =>
          rw [heq] at h
          rw [h] at hk
          exact absurd hk (by simp)
      · exact hk

/-- Helper: after a memoized derivation, the cache records its result. -/
theorem memoizedGet_lookup_post (o : Nat) (p : String) (s : MemoState) :
    memoLookup (o, p) ((memoizedGet o p s).2).memo =
      some (memoizedGet o p s).1 := by
  unfold memoizedGet
  cases h : memoLookup (o, p) s.memo with
  | some w => simpa using h
  | none => simp [memoLookup_head]

/-- Helper: re-running a memoized derivation in any extension of its
resulting cache returns the same result without touching the cache. -/
theorem memoizedGet_stable_of_extends (o : Nat) (p : String)
    (s s' : MemoState) (hext : MemoExtends s' (memoizedGet o p s).2) :
    memoizedGet o p s' = ((memoizedGet o p s).1, s') := by
  have hl : memoLookup (o, p) s'.memo = some (memoizedGet o p s).1 :=
    hext _ _ (memoizedGet_lookup_post o p s)
  conv_lhs => unfold memoizedGet
  rw [hl]

/-- Helper: applying a recorded attribute access only grows the cache. -/
theorem apply_attr_extends (ctx : DeferCtx) (n : String) (v : DVal)
    (st : MemoState) : MemoExtends (apply_attr ctx n v st).2 st := by
  cases v with
  | tyV id =>
      simp only [apply_attr]
      split
      · exact memoizedGet_extends id n st
      · split
        · exact memoExtends_refl st
        · split
          · exact memoExtends_refl st
          · exact memoExtends_refl st
  | fieldV id => exact memoExtends_refl st
  | attrV w nm => exact memoExtends_refl st
  | callV w a => exact memoExtends_refl st

/-- Helper: forcing a deferred reference only grows the cache. -/
theorem force_extends (ctx : DeferCtx) (d : Defer) (st : MemoState) :
    MemoExtends (Defer.force ctx d st).2 st := by
  induction d generalizing st with
  | base n => exact memoExtends_refl st
  | attr d n ih =>
      simp only [Defer.force]
      cases hf : d.force ctx st with
      | mk r st' =>
          cases r with
          | ok v =>
              have h1 : MemoExtends st' st := by
                have := ih st
                rw [hf] at this
                exact this
              exact memoExtends_trans (apply_attr_extends ctx n v st') h1
          | error e =>
              have := ih st
              rw [hf] at this
              exact this
  | call d args ih =>
      simp only [Defer.force]
      cases hf : d.force ctx st with
      | mk r st' =>
          cases r with
          | ok v =>
              have := ih st
              rw [hf] at this
              exact this
          | error e =>
              have := ih st
              rw [hf] at this
              exact this

/-- Helper: applying a recorded attribute access is stable — re-running it
from any extension of its resulting cache yields the same value and
leaves that cache unchanged. -/
theorem apply_attr_stable (ctx : DeferCtx) (n : String) (v : DVal)
    (st s : MemoState) (hext : MemoExtends s (apply_attr ctx n v st).2) :
    apply_attr ctx n v s = ((apply_attr ctx n v st).1, s) := by
  cases v with
  | tyV id =>
      by_cases h1 : n = "array" ∨ n = "list" ∨ n = "entity"
      · have hres : apply_attr ctx n (DVal.tyV id) st =
            (Except.ok (DVal.tyV (memoizedGet id n st).1),
              (memoizedGet id n st).2) := by
          simp only [apply_attr, h1, if_true]
        rw [hres] at hext
        have hmg := memoizedGet_stable_of_extends id n st s hext
        simp only [apply_attr, h1, if_true, hmg, hres]
      · by_cases h2 : n = "new" ∨ ¬ ctx.isStruct id = true
        · simp only [apply_attr, h1, h2, if_false, if_true]
        · simp only [apply_attr, h1, h2, if_false]
          cases hf : ctx.fields id n <;> simp [hf]
  | fieldV id => rfl
  | attrV w nm => rfl
  | callV w a => rfl

/-- Helper: forcing is stable — re-forcing from any extension of the
resulting cache yields the same value and leaves the cache unchanged. -/
theorem force_stable (ctx : DeferCtx) (d : Defer) :
    ∀ (st s : MemoState), MemoExtends s (Defer.force ctx d st).2 →
      Defer.force ctx d s = ((Defer.force ctx d st).1, s) := by
  induction d with
  | base n => intro st s hext; rfl
  | attr d n ih =>
      intro st s hext
      simp only [Defer.force] at hext ⊢
      cases hf : d.force ctx st with
      | mk r st' =>
          rw [hf] at hext
          cases r with
          | ok v =>
              have hext' : MemoExtends s (apply_attr ctx n v st').2 := hext
              have hs' : MemoExtends s st' :=
                memoExtends_trans hext' (apply_attr_extends ctx n v st')
              have hs'' : MemoExtends s (Defer.force ctx d st).2 := by
                rw [hf]
                exact hs'
              have hd := ih st s hs''
              rw [hf] at hd
              rw [hd]
              exact apply_attr_stable ctx n v st' s hext'
          | error e =>
              have hext' : MemoExtends s st' := hext
              have hs'' : MemoExtends s (Defer.force ctx d st).2 := by
                rw [hf]
                exact hext'
              have hd := ih st s hs''
              rw [hf] at hd
              rw [hd]
  | call d args ih =>
      intro st s hext
      simp only [Defer.force] at hext ⊢
      cases hf : d.force ctx st with
      | mk r st' =>
          rw [hf] at hext
          cases r with
          | ok v =>
              have hext' : MemoExtends s st' := hext
              have hs'' : MemoExtends s (Defer.force ctx d st).2 := by
                rw [hf]
                exact hext'
              have hd := ih st s hs''
              rw [hf] at hd
              rw [hd]
          | error e =>
              have hext' : MemoExtends s st' := hext
              have hs'' : MemoExtends s (Defer.force ctx d st).2 := by
                rw [hf]
                exact hext'
              have hd := ih st s hs''
              rw [hf] at hd
              rw [hd]

/-- C8: attribute access and invocation on a deferred reference return a
new deferred reference whose label extends the old one with the recorded
operation, keeping the old reference intact and unresolved (composition
takes no resolution environment at all); only forcing the composed
reference resolves the underlying reference and then applies the recorded
operation (field/derivation lookup for attribute access, invocation for
calls), errors from the underlying resolution propagating unchanged; and
forcing any deferred reference a second time from the state the first
force produced returns the same value and leaves that state unchanged
(idempotent and side-effect-free). -/
theorem defer_composition_lazy_idempotent_force (ctx : DeferCtx)
    (d : Defer) (n : String) (args : List String) (st : MemoState) :
    (defer_getattr d n).label = d.label ++ "." ++ n ∧
    (defer_call d args).label =
      d.label ++ "(" ++ String.intercalate ", " args ++ ")" ∧
    defer_getattr d n = Defer.attr d n ∧
    defer_call d args = Defer.call d args ∧
    (∀ v st1, Defer.force ctx d st = (Except.ok v, st1) →
      Defer.force ctx (defer_getattr d n) st = apply_attr ctx n v st1) ∧
    (∀ e st1, Defer.force ctx d st = (Except.error e, st1) →
      Defer.force ctx (defer_getattr d n) st = (Except.error e, st1)) ∧
    (∀ v st1, Defer.force ctx d st = (Except.ok v, st1) →
      Defer.force ctx (defer_call d args) st =
        (Except.ok (DVal.callV v args), st1)) ∧
    Defer.force ctx d (Defer.force ctx d st).2 =
      ((Defer.force ctx d st).1, (Defer.force ctx d st).2) := by
  refine ⟨rfl, rfl, rfl, rfl, ?_, ?_, ?_, ?_⟩
  · intro v st1 h
    simp only [defer_getattr, Defer.force, h]
  · intro e st1 h
    simp only [defer_getattr, Defer.force, h]
  · intro v st1 h
    simp only [defer_call, Defer.force, h]
  · exact force_stable ctx d st (Defer.force ctx d st).2
      (memoExtends_refl _)

/-- C8 witness: in the sample environment (`"Foo"` registered as struct 0
with field `"fld"` 42), composing then forcing resolves the base and
applies the field lookup, and a second force is a no-op. -/
theorem defer_composition_lazy_idempotent_force_witness :
    (defer_getattr (Defer.base "Foo") "fld").label = "Foo.fld" ∧
    Defer.force deferCtx0 (defer_getattr (Defer.base "Foo") "fld") ⟨[], 0⟩ =
      (Except.ok (DVal.fieldV 42), ⟨[], 0⟩) ∧
    Defer.force deferCtx0 (defer_getattr (Defer.base "Foo") "fld")
        (Defer.force deferCtx0 (defer_getattr (Defer.base "Foo") "fld")
          ⟨[], 0⟩).2 =
      ((Defer.force deferCtx0 (defer_getattr (Defer.base "Foo") "fld")
          ⟨[], 0⟩).1,
        (Defer.force deferCtx0 (defer_getattr (Defer.base "Foo") "fld")
          ⟨[], 0⟩).2) := by
  have h := defer_composition_lazy_idempotent_force deferCtx0
    (Defer.base "Foo") "fld" [] ⟨[], 0⟩
  have h2 := defer_composition_lazy_idempotent_force deferCtx0
    (defer_getattr (Defer.base "Foo") "fld") "x" [] ⟨[], 0⟩
  refine ⟨h.1.trans (by rfl), ?_, h2.2.2.2.2.2.2.2⟩
  have happ := h.2.2.2.2.1 (DVal.tyV 0) ⟨[], 0⟩ rfl
  rw [happ]
  rfl

end Langkit
